import Mathlib

/-!
# Verification of the MIRAI checker's solver abstraction and test-synthesis core

Shallow embedding of `src/checker/src/smt_solver.rs` and
`src/checker/src/test_gen.rs`, with theorems settling the specification
claims about them.

Conventions:
* Rust `BTreeMap<String, _>` is modelled as a sorted association list
  (`List (String × _)`), with lookup/insert operations mirroring the map API.
* Rust panics (unwrap on `None`, out-of-bounds indexing, integer underflow)
  and MIRAI `precondition!` violations are modelled by `Option`-valued
  functions returning `none`.
* File-system effects are modelled by boolean success oracles passed in as
  parameters; the emitted text itself is built by pure string functions
  translated from the source.
-/

/-! ## Solver Abstraction Layer (`src/checker/src/smt_solver.rs`) -/

/-- `SmtResult` (smt_solver.rs, lines 22-29): the result of using the solver
to solve an expression. -/
inductive SmtResult where
  | Satisfiable
  | Unsatisfiable
  | Undefined
deriving DecidableEq, Repr

/-- `SmtParamValue` (smt_solver.rs, lines 31-36): one solver-reported value
for one free variable.  The `i128` payload of `Numeral` is modelled as `Int`
(no arithmetic is ever performed on it, only decimal rendering). -/
inductive SmtParamValue where
  | Bool (val : Bool)
  | Numeral (val : Int)
  | Unknown
deriving DecidableEq, Repr

/-- `impl Display for SmtParamValue` (smt_solver.rs, lines 38-47): booleans and
numerals render as their decimal/boolean literals, everything else as `"_"`. -/
def SmtParamValue.fmt : SmtParamValue → String
  | SmtParamValue.Bool val => toString val
  | SmtParamValue.Numeral val => toString val
  | SmtParamValue.Unknown => "_"

/-- State of a solver implementing the `SmtSolver` trait.
`number_of_backtracks` is the MIRAI model field manipulated by the default
`set_backtrack_position`/`backtrack` methods (smt_solver.rs, lines 130-132 and
152-159).  `contexts` is the stack of backtrack frames, head = current frame;
its push/pop behaviour follows the trait's documented contract (smt_solver.rs
lines 129 and 150-151: backtrack destroys the current context and restores the
containing one; set_backtrack_position creates a nested context). -/
structure SolverState (E : Type) where
  contexts : List (List E)
  number_of_backtracks : Nat
deriving DecidableEq, Repr

/-- A freshly created solver: a single empty root context, no backtracks. -/
def initSolver (E : Type) : SolverState E :=
  { contexts := [[]], number_of_backtracks := 0 }

/-- Default `set_backtrack_position` (smt_solver.rs, lines 152-159): requires
`number_of_backtracks < 1000` (the `precondition!`, modelled as a guard),
pushes a fresh empty frame and increments the counter. -/
def set_backtrack_position {E : Type} (s : SolverState E) : Option (SolverState E) :=
  if s.number_of_backtracks < 1000 then
    some { contexts := [] :: s.contexts,
           number_of_backtracks := s.number_of_backtracks + 1 }
  else none

/-- Default `backtrack` (smt_solver.rs, lines 130-132): requires
`number_of_backtracks > 0` (the `precondition!`); pops the most recent frame
(per the documented contract) and does NOT change the counter — the default
body contains no decrement. -/
def backtrack {E : Type} (s : SolverState E) : Option (SolverState E) :=
  if 0 < s.number_of_backtracks then
    some { contexts := s.contexts.tail,
           number_of_backtracks := s.number_of_backtracks }
  else none

/-- `assert` (smt_solver.rs, line 125): adds the given expression to the
current context (the top frame). -/
def assert {E : Type} (e : E) (s : SolverState E) : SolverState E :=
  match s.contexts with
  | [] => { s with contexts := [[e]] }
  | c :: rest => { s with contexts := (e :: c) :: rest }

/-- `solve` (smt_solver.rs, line 163).  Modelled from the spec: the concrete
decision procedure is an external solver backend; per the trait documentation
it decides satisfiability of the conjunction of all predicates asserted in all
active contexts, so it is abstracted as a pure function `solveFn` of the list
of all asserted predicates. -/
def solve {E : Type} (solveFn : List E → SmtResult) (s : SolverState E) : SmtResult :=
  solveFn s.contexts.flatten

/-- Default `solve_expression` (smt_solver.rs, lines 166-172): push a context,
assert the expression, solve, pop the context, return the solve result. -/
def solve_expression {E : Type} (solveFn : List E → SmtResult) (e : E)
    (s : SolverState E) : Option (SmtResult × SolverState E) :=
  match set_backtrack_position s with
  | none => none
  | some s1 =>
    let s2 := assert e s1
    let result := solve solveFn s2
    match backtrack s2 with
    | none => none
    | some s3 => some (result, s3)

/-- `n` successive calls to the default `set_backtrack_position`. -/
def pushN {E : Type} : Nat → SolverState E → Option (SolverState E)
  | 0, s => some s
  | n + 1, s => (pushN n s).bind set_backtrack_position

/-- One operation of the solver protocol relevant to the backtrack counter. -/
inductive SolverOp (E : Type) where
  | push
  | pop
  | assertOp (e : E)

/-- Apply one protocol operation using the default method bodies. -/
def applyOp {E : Type} : SolverOp E → SolverState E → Option (SolverState E)
  | SolverOp.push, s => set_backtrack_position s
  | SolverOp.pop, s => backtrack s
  | SolverOp.assertOp e, s => some (assert e s)

/-- Run a sequence of protocol operations; `none` if any precondition fails. -/
def runOps {E : Type} : List (SolverOp E) → SolverState E → Option (SolverState E)
  | [], s => some s
  | op :: rest, s => (applyOp op s).bind (runOps rest)

/-- Number of `set_backtrack_position` calls in an operation sequence. -/
def countPushes {E : Type} : List (SolverOp E) → Nat
  | [] => 0
  | SolverOp.push :: rest => countPushes rest + 1
  | SolverOp.pop :: rest => countPushes rest
  | SolverOp.assertOp _ :: rest => countPushes rest

/-- Operation sequence for the `number_of_backtracks_monotone` witness:
push, assert, pop (nesting depth returns to 0), push again. -/
def opsW : List (SolverOp Nat) :=
  [SolverOp.push, SolverOp.assertOp 7, SolverOp.pop, SolverOp.push]

/-- Final state of the witness run. -/
def solverW : SolverState Nat := (runOps opsW (initSolver Nat)).getD (initSolver Nat)

/-! ## Access paths and root correlation (`test_gen.rs`, `grab_top`) -/

/-- Modelled from the spec: the external Access Path type (`crate::path::Path`
with its `PathEnum` value, consumed but not owned by this core).  Only the
variants `Parameter(ordinal)` and `QualifiedPath { qualifier, .. }` matter
here; all other variants are collapsed into an opaque `other`. -/
inductive MPath where
  | parameter (ordinal : Nat)
  | qualifiedPath (qualifier : MPath) (selector : Nat)
  | other (tag : Nat)
deriving DecidableEq, Repr

/-- Modelled from the spec: `Path::get_ordinal` of the external path type —
the ordinal of a root `Parameter` path (spec invariant: every Access Path in
scope resolves to a root Parameter; non-Parameter roots yield 0). -/
def MPath.get_ordinal : MPath → Nat
  | MPath.parameter ordinal => ordinal
  | _ => 0

/-- Whether the path is a `QualifiedPath`. -/
def MPath.isQualifiedPath : MPath → Bool
  | MPath.qualifiedPath _ _ => true
  | _ => false

/-- `TestGen::grab_top` (test_gen.rs, lines 69-83): follow `qualifier` links
while the current path is a `QualifiedPath`; return the first non-qualified
path reached. -/
def grab_top : MPath → MPath
  | MPath.qualifiedPath qualifier _ => grab_top qualifier
  | p => p

/-! ## Sorted-association-list model of `BTreeMap<String, α>` -/

/-- `BTreeMap::get` / key lookup. -/
def bmFind {α : Type} : List (String × α) → String → Option α
  | [], _ => none
  | (k1, v1) :: rest, k => if k1 = k then some v1 else bmFind rest k

/-- `BTreeMap::contains_key`. -/
def bmContains {α : Type} (m : List (String × α)) (k : String) : Bool :=
  (bmFind m k).isSome

/-- `BTreeMap::insert` on the sorted-association-list model: keeps keys in
ascending order, replaces the stored value when the key is already present. -/
def bmInsert {α : Type} : List (String × α) → String → α → List (String × α)
  | [], k, v => [(k, v)]
  | (k1, v1) :: rest, k, v =>
    if k < k1 then (k, v) :: (k1, v1) :: rest
    else if k = k1 then (k, v) :: rest
    else (k1, v1) :: bmInsert rest k v

/-- The `if !m.contains_key(&k) { m.insert(k, v); }` pattern used by
`add_test` (test_gen.rs, lines 159-165): first write wins. -/
def bmInsertIfAbsent {α : Type} (m : List (String × α)) (k : String) (v : α) :
    List (String × α) :=
  if bmContains m k then m else bmInsert m k v

/-- Update of the value stored at an existing key (`BTreeMap::get_mut`
followed by in-place mutation): the key structure is unchanged. -/
def bmSet {α : Type} : List (String × α) → String → α → List (String × α)
  | [], _, _ => []
  | (k1, v1) :: rest, k, v =>
    if k1 = k then (k, v) :: bmSet rest k v else (k1, v1) :: bmSet rest k v

/-- The keys of the map, in iteration order. -/
def bmKeys {α : Type} (m : List (String × α)) : List String := m.map Prod.fst

/-- Well-formedness of the map model: keys strictly ascending, which is the
`BTreeMap` iteration-order guarantee. -/
def bmSorted {α : Type} (m : List (String × α)) : Prop :=
  List.Pairwise (fun a b => a.1 < b.1) m

/-- `vec[i] = x` / mutation through `&mut vec[i]`, as a list update. -/
def listModify {α : Type} (f : α → α) : Nat → List α → List α
  | _, [] => []
  | 0, a :: rest => f a :: rest
  | n + 1, a :: rest => a :: listModify f n rest

/-! ## Test Synthesis Engine data model (`src/checker/src/test_gen.rs`) -/

/-- Opaque handle for a `rustc_middle::ty::Ty` together with its rendered
name (`ty.to_string()`), the only operation this core performs on it. -/
structure MTy where
  name : String
deriving DecidableEq, Repr

/-- `ResolvedParam` (test_gen.rs, lines 9-17). -/
structure ResolvedParam where
  ty : MTy
  name : String
  type_name : String
  value_string : String
  param_ordinal : Option Nat
  related_to : Nat
deriving DecidableEq, Repr

/-- `FuncArg` (test_gen.rs, lines 20-26); `related_to` is the
`BTreeMap<Rc<String>, Rc<ResolvedParam>>` of related fields. -/
structure FuncArg where
  ty : MTy
  name : String
  ordinal : Nat
  related_to : List (String × ResolvedParam)
deriving DecidableEq, Repr

/-- `Testcase` (test_gen.rs, lines 28-32); the checked `AbstractValue` is
opaque to this core (carried through, never rendered), modelled as a tag. -/
structure Testcase where
  abstract_val : Nat
  param_list : List ResolvedParam
deriving DecidableEq, Repr

/-- `FuncTestCaseInfo` (test_gen.rs, lines 34-43). -/
structure FuncTestCaseInfo where
  func_name : String
  param_map : List (String × ResolvedParam)
  testcases : List Testcase
  args : List FuncArg
  func_name_raw : String
deriving DecidableEq, Repr

/-- `TestGen` (test_gen.rs, lines 45-49); the `TyCtxt` handle is external and
omitted (type information reaches `add_test` through its inputs). -/
structure TestGen where
  test_output_dir : String
  testcase_map : List (String × FuncTestCaseInfo)
deriving DecidableEq, Repr

/-- `TestGen::new` (test_gen.rs, lines 60-67). -/
def TestGen.new (test_output_file : String) : TestGen :=
  { test_output_dir := test_output_file, testcase_map := [] }

/-- One element of the `params: &Vec<Box<dyn SmtParam>>` input of `add_test`:
the capabilities of the external `SmtParam` trait object that `add_test`
uses.  `debug_name` is the result of `param.get_debug_name(debug_names)`
(solver-specific, external), `path` of `param.get_path()`, `val` of
`param.get_val()`. -/
structure SmtParamData where
  debug_name : String
  path : Option MPath
  val : SmtParamValue
deriving DecidableEq, Repr

/-- Left-to-right, non-overlapping replacement of a non-empty pattern: the
semantics of Rust `str::replace` for the patterns used here ("." and "::").
The fuel argument (initially the string length) only serves termination; a
match consumes at least one character. -/
def replaceFuel (pat rep : List Char) : Nat → List Char → List Char
  | _, [] => []
  | 0, s => s
  | fuel + 1, c :: rest =>
    if pat ≠ [] ∧ pat.isPrefixOf (c :: rest) then
      rep ++ replaceFuel pat rep fuel ((c :: rest).drop pat.length)
    else c :: replaceFuel pat rep fuel rest

/-- Rust `s.replace(pat, rep)`. -/
def rustReplace (s pat rep : String) : String :=
  String.mk (replaceFuel pat.data rep.data s.data.length s.data)

/-- `function_name.replace(".", "_").replace("::", "_")`
(test_gen.rs, line 96). -/
def sanitizeName (function_name : String) : String :=
  rustReplace (rustReplace function_name "." "_") "::" "_"

/-- The Function Argument creation loop of `add_test` (test_gen.rs, lines
101-118): the i-th declared argument (0-based `i`) has
`ordinal = local.as_usize() = i + 1` (the return-place local was skipped) and
display name `debug_names[ordinal]`, defaulting to
`format!("param_{}", ordinal + 1)`. -/
def mkArgs (debug_names : Nat → Option String) : Nat → List MTy → List FuncArg
  | _, [] => []
  | ordinal, ty :: rest =>
    { ty := ty,
      name := (debug_names ordinal).getD ("param_" ++ toString (ordinal + 1)),
      ordinal := ordinal,
      related_to := [] } :: mkArgs debug_names (ordinal + 1) rest

/-- The fresh `FuncTestCaseInfo` inserted by `add_test` on first sight of a
function name (test_gen.rs, lines 97-130). -/
def newFuncInfo (fname raw : String) (argDecls : List MTy)
    (debug_names : Nat → Option String) : FuncTestCaseInfo :=
  { func_name := fname
    param_map := []
    testcases := []
    args := mkArgs debug_names 1 argDecls
    func_name_raw := raw }

/-- Construction of one `ResolvedParam` inside the parameter loop of
`add_test` (test_gen.rs, lines 134-156); `getPathType` stands for
`type_visitor.get_path_rustc_type(&path, current_span)`. -/
def mkResolvedParam (getPathType : MPath → MTy) (p : SmtParamData) (path : MPath) :
    ResolvedParam :=
  { ty := getPathType path
    name := p.debug_name
    type_name := (getPathType path).name
    value_string := SmtParamValue.fmt p.val
    param_ordinal := match path with
      | MPath.parameter ordinal => some ordinal
      | _ => none
    related_to := (grab_top path).get_ordinal }

/-- Recording one resolved parameter into the owning argument's `related_to`
map and the group's `param_map` (test_gen.rs, lines 158-165), both
first-write-wins. -/
def recordResolved (fi : FuncTestCaseInfo) (r : ResolvedParam) : FuncTestCaseInfo :=
  { fi with
    args := listModify
      (fun a => { a with related_to := bmInsertIfAbsent a.related_to r.name r })
      (r.related_to - 1) fi.args
    param_map := bmInsertIfAbsent fi.param_map r.name r }

/-- The `for param in params` loop of `add_test` (test_gen.rs, lines
133-168).  `none` models the panics: `param.get_path().unwrap()` on a missing
path, and the `func_info.args[related_to - 1]` indexing when `related_to` is
0 (usize underflow) or exceeds the argument count. -/
def processParams (getPathType : MPath → MTy) :
    FuncTestCaseInfo → List SmtParamData → Option (FuncTestCaseInfo × List ResolvedParam)
  | fi, [] => some (fi, [])
  | fi, p :: rest =>
    match p.path with
    | none => none
    | some path =>
      if 1 ≤ (mkResolvedParam getPathType p path).related_to ∧
          (mkResolvedParam getPathType p path).related_to ≤ fi.args.length then
        match processParams getPathType
            (recordResolved fi (mkResolvedParam getPathType p path)) rest with
        | none => none
        | some (fi2, rs) => some (fi2, mkResolvedParam getPathType p path :: rs)
      else none

/-- The group-creation step of `add_test` (test_gen.rs, lines 97-130):
insert a fresh `FuncTestCaseInfo` unless the sanitized name is present. -/
def ensureGroup (g : TestGen) (function_name : String) (argDecls : List MTy)
    (debug_names : Nat → Option String) : List (String × FuncTestCaseInfo) :=
  if bmContains g.testcase_map (sanitizeName function_name) then g.testcase_map
  else bmInsert g.testcase_map (sanitizeName function_name)
    (newFuncInfo (sanitizeName function_name) function_name argDecls debug_names)

/-- `TestGen::add_test` (test_gen.rs, lines 87-174).  External inputs are
abstracted: `argDecls` lists the declared argument types (from
`type_visitor.mir`, the return-place local already skipped), `getPathType`
is the type-visitor query, `debug_names` the ordinal-to-debug-name map; the
`ind` parameter is kept although the source never reads it.  Ensure the
group exists, run the parameter loop, then push the new `Testcase`. -/
def add_test (g : TestGen) (function_name : String) (val : Nat)
    (params : List SmtParamData) (ind : Nat) (argDecls : List MTy)
    (getPathType : MPath → MTy) (debug_names : Nat → Option String) :
    Option TestGen :=
  (bmFind (ensureGroup g function_name argDecls debug_names)
      (sanitizeName function_name)).bind fun func_info =>
    (processParams getPathType func_info params).map fun pr =>
      { g with testcase_map := (bmSet
          (ensureGroup g function_name argDecls debug_names)
          (sanitizeName function_name)
          ({ pr.1 with testcases := pr.1.testcases
              ++ [{ abstract_val := val, param_list := pr.2 }] })) }

/-- Observer: the resolved parameter recorded under display name `k` in the
`related_to` map of the argument at 0-based index `i`. -/
def argBinding (fi : FuncTestCaseInfo) (i : Nat) (k : String) : Option ResolvedParam :=
  (fi.args.get? i).bind (fun a => bmFind a.related_to k)

/-- Observer: the shape of an argument — everything except its
`related_to` map. -/
def argShape (a : FuncArg) : MTy × String × Nat := (a.ty, a.name, a.ordinal)

/-- Inputs shared by the concrete witness scenarios below: an `i32` type
handle, a constant type query, and an empty debug-name map. -/
def ityW : MTy := { name := "i32" }

/-- Type query used by the witness scenarios. -/
def gptW : MPath → MTy := fun _ => ityW

/-- Empty debug-name map used by the witness scenarios. -/
def dbgW : Nat → Option String := fun _ => none

/-- Witness model parameter: display name "x", direct `Parameter(1)` path,
numeral value 1. -/
def p1W : SmtParamData :=
  { debug_name := "x", path := some (MPath.parameter 1), val := SmtParamValue.Numeral 1 }

/-- A second model parameter with the same display name but value 2. -/
def p2W : SmtParamData :=
  { debug_name := "x", path := some (MPath.parameter 1), val := SmtParamValue.Numeral 2 }

/-- Fallback group used only to totalize lookups in witness definitions. -/
def fiBlank : FuncTestCaseInfo :=
  { func_name := "", param_map := [], testcases := [], args := [], func_name_raw := "" }

/-- Generator state after recording `p1W` for function "f". -/
def g1W : TestGen :=
  (add_test (TestGen.new "out") "f" 0 [p1W] 0 [ityW] gptW dbgW).getD (TestGen.new "out")

/-- Generator state after additionally recording `p2W` (same name "x"). -/
def g2W : TestGen :=
  (add_test g1W "f" 0 [p2W] 0 [ityW] gptW dbgW).getD (TestGen.new "out")

/-- The group for "f" after the first call. -/
def fi1W : FuncTestCaseInfo := (bmFind g1W.testcase_map "f").getD fiBlank

/-- The group for "f" after the second call. -/
def fi2W : FuncTestCaseInfo := (bmFind g2W.testcase_map "f").getD fiBlank

/-- The resolved parameter produced from `p1W`. -/
def r1W : ResolvedParam := mkResolvedParam gptW p1W (MPath.parameter 1)

/-- The freshly created group for "f" as the parameter loop of the
within-one-call witness starts (after `ensureGroup`). -/
def fiNW : FuncTestCaseInfo :=
  (bmFind (ensureGroup (TestGen.new "out") "f" [ityW] dbgW) (sanitizeName "f")).getD fiBlank

/-- Generator state after ONE `add_test` call that carries both same-named
parameters `p1W` (value 1) and `p2W` (value 2). -/
def gBW : TestGen :=
  (add_test (TestGen.new "out") "f" 0 [p1W, p2W] 0 [ityW] gptW dbgW).getD (TestGen.new "out")

/-- The group for "f" after that single call. -/
def fiBW : FuncTestCaseInfo := (bmFind gBW.testcase_map "f").getD fiBlank

/-- Generator state for the `synthesized_name_is_ordinal_succ` witness. -/
def g8W : TestGen :=
  (add_test (TestGen.new "out") "g8" 0 [] 0 [ityW] gptW dbgW).getD (TestGen.new "out")

/-- Group used by the `smt_param_value_render_total` witness. -/
def fi9W : FuncTestCaseInfo := newFuncInfo "f" "f" [ityW] dbgW

/-- Witness model parameter whose value the solver could not recover. -/
def pUnkW : SmtParamData :=
  { debug_name := "u", path := some (MPath.qualifiedPath (MPath.parameter 1) 0),
    val := SmtParamValue.Unknown }

/-- Result of the witness parameter loop. -/
def proc9W : FuncTestCaseInfo × List ResolvedParam :=
  (processParams gptW fi9W [p1W, pUnkW]).getD (fi9W, [])

/-! ## Emission (`test_gen.rs`, lines 176-287) -/

/-- Rust `if s.len() > 1 { s.truncate(s.len() - 2) }`, stripping a trailing
", " separator (test_gen.rs, lines 214-216, 228-230, 242-244). -/
def truncTwo (s : String) : String :=
  if s.length > 1 then String.mk (s.data.take (s.data.length - 2)) else s

/-- The `resolved_args` filling loop of `output_testcase` (test_gen.rs,
lines 181-187): a slot per argument, assigned (later wins) from each
resolved parameter that has a `param_ordinal`; `none` models the panic of
`resolved_args[ord - 1]` when `ord` is 0 or out of bounds. -/
def buildResolvedArgs :
    List ResolvedParam → List (Option ResolvedParam) →
    Option (List (Option ResolvedParam))
  | [], slots => some slots
  | r :: rest, slots =>
    match r.param_ordinal with
    | none => buildResolvedArgs rest slots
    | some ord =>
      if 1 ≤ ord ∧ ord ≤ slots.length then
        buildResolvedArgs rest (listModify (fun _ => some r) (ord - 1) slots)
      else none

/-- The per-argument loop of `output_testcase` (test_gen.rs, lines 193-226),
accumulating `constructor_param_initializers` (first component) and
`func_call_param_string` (second component). -/
def testcaseLoop (testcase_params : List ResolvedParam) :
    List (FuncArg × Option ResolvedParam) → String → String → String × String
  | [], ci, fc => (ci, fc)
  | (arg, res) :: rest, ci, fc =>
    match res with
    | some resolved =>
      testcaseLoop testcase_params rest ci (fc ++ resolved.value_string ++ ", ")
    | none =>
      testcaseLoop testcase_params rest
        (ci ++ "        let " ++ arg.name ++ ": " ++ arg.ty.name ++ " = construct_"
          ++ arg.name ++ "("
          ++ truncTwo (String.join (arg.related_to.map fun p =>
              if testcase_params.any (fun q => p.1 == q.name) then "Some(" ++ p.1 ++ "), "
              else "None, "))
          ++ ");\n")
        (fc ++ arg.name ++ ", ")

/-- `TestGen::output_testcase` (test_gen.rs, lines 176-236). -/
def output_testcase (test_ind : Nat) (func_info : FuncTestCaseInfo)
    (testcase : Testcase) : Option String :=
  match buildResolvedArgs testcase.param_list
      (List.replicate func_info.args.length none) with
  | none => none
  | some resolved_args =>
    some ("    #[test]\n    fn test_" ++ toString test_ind ++ "() \x7b\n"
      ++ String.join (testcase.param_list.map fun param =>
          "        let " ++ param.name ++ ": " ++ param.type_name ++ " = "
            ++ param.value_string ++ ";\n")
      ++ "\n"
      ++ (testcaseLoop testcase.param_list (func_info.args.zip resolved_args) "" "").1
      ++ "\n        "
      ++ (func_info.func_name_raw ++ "("
          ++ truncTwo (testcaseLoop testcase.param_list
              (func_info.args.zip resolved_args) "" "").2 ++ ");")
      ++ "\n    \x7d\n\n")

/-- `TestGen::make_constuctor_function` (test_gen.rs, lines 238-246; the
source's spelling is kept): the constructor stub for one argument, with one
optional parameter per related field. -/
def make_constuctor_function (arg : FuncArg) : String :=
  "    fn construct_" ++ arg.name ++ "("
    ++ truncTwo (String.join (arg.related_to.map fun p =>
        p.2.name ++ ": Option<" ++ p.2.type_name ++ ">, "))
    ++ ") -> " ++ arg.ty.name
    ++ "\x7b\n        todo!(\"Make an instance of this struct using the given params.\")\n    \x7d\n\n"

/-- The testcase loop of `output_function_testcases` (test_gen.rs, lines
255-258): `.iter().enumerate()` rendering, indices `k`, `k + 1`, ... -/
def testcasesStrings (func_info : FuncTestCaseInfo) :
    Nat → List Testcase → Option String
  | _, [] => some ""
  | k, tc :: rest =>
    match output_testcase k func_info tc with
    | none => none
    | some s =>
      match testcasesStrings func_info (k + 1) rest with
      | none => none
      | some t => some (s ++ t)

/-- `TestGen::output_function_testcases` (test_gen.rs, lines 248-262): the
module header, then one constructor stub per argument — the `.iter().map()`
runs over ALL of `func_info.args`, with no emptiness filter — then the
numbered test functions, then the closing brace. -/
def output_function_testcases (func_info : FuncTestCaseInfo) : Option String :=
  match testcasesStrings func_info 0 func_info.testcases with
  | none => none
  | some body =>
    some ("\n#[cfg(test)]\nmod " ++ func_info.func_name
      ++ "_tests \x7b\n    use super::*;\n\n"
      ++ String.join (func_info.args.map make_constuctor_function)
      ++ (body ++ "\x7d\n"))

/-- The output path `format!("{}/{}_tests.rs", dir, func_name)`
(test_gen.rs, line 271). -/
def mkFileName (dir fname : String) : String := dir ++ "/" ++ fname ++ "_tests.rs"

/-- The emission loop of `output_internal` (test_gen.rs, lines 268-274).
`fileOk` abstracts the file system — whether `File::create` plus `write!`
succeed for a given path (the two `?` operators are one failure point per
function).  Returns the files actually written, in order, and whether an
`Err` was propagated — which ends the loop at once; `none` models a panic
inside the pure rendering. -/
def writeLoop (dir : String) (fileOk : String → Bool) :
    List (String × FuncTestCaseInfo) → Option (List (String × String) × Bool)
  | [] => some ([], false)
  | (fname, func_info) :: rest =>
    match output_function_testcases func_info with
    | none => none
    | some content =>
      if fileOk (mkFileName dir fname) then
        match writeLoop dir fileOk rest with
        | none => none
        | some (ws, err) => some ((mkFileName dir fname, content) :: ws, err)
      else some ([], true)

/-- `TestGen::output_internal` (test_gen.rs, lines 264-277): create the
output directory (`dirOk` abstracts `create_dir_all`; its failure is
propagated before anything is written), then write one file per recorded
function in map (sorted-key) order, `?`-propagating the first failure. -/
def output_internal (dirOk : Bool) (fileOk : String → Bool) (g : TestGen) :
    Option (List (String × String) × Bool) :=
  if dirOk then writeLoop g.test_output_dir fileOk g.testcase_map
  else some ([], true)

/-- `TestGen::output` (test_gen.rs, lines 279-287): run `output_internal`,
log (`error!`) if it returned `Err`, return normally either way.  The
second component is the logged error message, if any. -/
def output (dirOk : Bool) (fileOk : String → Bool) (g : TestGen) :
    Option (List (String × String) × Option String) :=
  (output_internal dirOk fileOk g).map fun r =>
    (r.1, if r.2 then some "test_gen output error" else none)

/-- Decidable substring test (scan all suffixes). -/
def containsSub (s pat : String) : Bool :=
  (List.range (s.data.length + 1)).any (fun i => pat.data.isPrefixOf (s.data.drop i))

/-- The group recorded by the witness scenario `g1W` (one plain integer
argument "f", one testcase with "x" = 1 at Parameter(1)). -/
def fiC2W : FuncTestCaseInfo := (bmFind g1W.testcase_map "f").getD fiBlank

/-- The unit emitted for that group. -/
def sC2W : String := (output_function_testcases fiC2W).getD ""

/-- Trivial group "a" used by the C3 counterexample. -/
def fiA : FuncTestCaseInfo :=
  { func_name := "a", param_map := [], testcases := [], args := [], func_name_raw := "a" }

/-- Trivial group "b" used by the C3 counterexample. -/
def fiB : FuncTestCaseInfo := { fiA with func_name := "b", func_name_raw := "b" }

/-- Generator state with the two recorded functions "a" and "b". -/
def g3W : TestGen := { test_output_dir := "out", testcase_map := [("a", fiA), ("b", fiB)] }

/-- File system on which only the write for "a" fails. -/
def fOk3 : String → Bool := fun n => n != "out/a_tests.rs"

/-! ## Determinism of emission (C7) -/

/-- One recorded `add_test` invocation: all of its inputs. -/
structure AddTestCall where
  function_name : String
  val : Nat
  params : List SmtParamData
  ind : Nat
  argDecls : List MTy
  getPathType : MPath → MTy
  debug_names : Nat → Option String

/-- Replay a sequence of `add_test` calls against a generator state. -/
def runCallsFrom : TestGen → List AddTestCall → Option TestGen
  | g, [] => some g
  | g, c :: rest =>
    match add_test g c.function_name c.val c.params c.ind c.argDecls
        c.getPathType c.debug_names with
    | none => none
    | some g1 => runCallsFrom g1 rest

/-- Replay from a fresh generator (`TestGen::new`). -/
def runCalls (dir : String) (calls : List AddTestCall) : Option TestGen :=
  runCallsFrom (TestGen.new dir) calls

/-- Spec-side numbering: pair each testcase with its index, starting at `k`. -/
def numberFrom (k : Nat) : List Testcase → List (Nat × Testcase)
  | [] => []
  | tc :: rest => (k, tc) :: numberFrom (k + 1) rest

/-- Join an optional list of strings; `none` if any element is `none`. -/
def joinOpt : List (Option String) → Option String
  | [] => some ""
  | o :: rest =>
    match o with
    | none => none
    | some s =>
      match joinOpt rest with
      | none => none
      | some t => some (s ++ t)

/-- Spec-side rendition of "one test function per Test Case, numbered
sequentially starting at 0, in insertion order". -/
def testsNumbered (func_info : FuncTestCaseInfo) : Option String :=
  joinOpt ((numberFrom 0 func_info.testcases).map fun p =>
    output_testcase p.1 func_info p.2)

/-- The recorded call of the C7 witness. -/
def callW : AddTestCall :=
  { function_name := "f", val := 0, params := [p1W], ind := 0, argDecls := [ityW],
    getPathType := gptW, debug_names := dbgW }

/-- The state replayed by the C7 witness. -/
def g7W : TestGen := (runCalls "out" [callW]).getD (TestGen.new "out")

/-! ## Theorems -/

lemma assert_number_of_backtracks {E : Type} (e : E) (s : SolverState E) :
    (assert e s).number_of_backtracks = s.number_of_backtracks := by
  cases h : s.contexts <;> simp [assert, h]

lemma pushN_init (E : Type) : ∀ n, n ≤ 1000 →
    pushN n (initSolver E)
      = some { contexts := List.replicate n [] ++ [[]], number_of_backtracks := n } := by
  intro n
  induction n with
  | zero => intro _; rfl
  | succ k ih =>
    intro hk
    have hk' : k ≤ 1000 := Nat.le_of_succ_le hk
    have hlt : k < 1000 := Nat.lt_of_succ_le hk
    simp [pushN, ih hk', set_backtrack_position, hlt, List.replicate_succ]

lemma runOps_counter {E : Type} : ∀ (ops : List (SolverOp E)) (s s' : SolverState E),
    runOps ops s = some s' →
    s'.number_of_backtracks = s.number_of_backtracks + countPushes ops := by
  intro ops
  induction ops with
  | nil => intro s s' h; simp [runOps] at h; simp [h.symm, countPushes]
  | cons op rest ih =>
    intro s s' h
    cases op with
    | push =>
      simp only [runOps, applyOp, set_backtrack_position] at h
      by_cases hc : s.number_of_backtracks < 1000
      · simp only [hc, if_pos, Option.some_bind] at h
        have := ih _ _ h
        simp only [countPushes] at *
        omega
      · simp [hc] at h
    | pop =>
      simp only [runOps, applyOp, backtrack] at h
      by_cases hc : 0 < s.number_of_backtracks
      · simp only [hc, if_pos, Option.some_bind] at h
        have := ih _ _ h
        simp only [countPushes] at *
        omega
      · simp [hc] at h
    | assertOp e =>
      simp only [runOps, applyOp, Option.some_bind] at h
      have := ih _ _ h
      simp only [countPushes] at *
      rw [this, assert_number_of_backtracks]

lemma runOps_le_1000 {E : Type} : ∀ (ops : List (SolverOp E)) (s s' : SolverState E),
    runOps ops s = some s' → 0 < countPushes ops →
    s'.number_of_backtracks ≤ 1000 := by
  intro ops
  induction ops with
  | nil => intro s s' _ hp; simp [countPushes] at hp
  | cons op rest ih =>
    intro s s' h hp
    cases op with
    | push =>
      simp only [runOps, applyOp, set_backtrack_position] at h
      by_cases hc : s.number_of_backtracks < 1000
      · simp only [hc, if_pos, Option.some_bind] at h
        by_cases hr : 0 < countPushes rest
        · exact ih _ _ h hr
        · have := runOps_counter rest _ _ h
          simp only [Nat.not_lt, Nat.le_zero] at hr
          simp only [this, hr]
          omega
      · simp [hc] at h
    | pop =>
      simp only [runOps, applyOp, backtrack] at h
      by_cases hc : 0 < s.number_of_backtracks
      · simp only [hc, if_pos, Option.some_bind] at h
        simp only [countPushes] at hp
        exact ih _ _ h hp
      · simp [hc] at h
    | assertOp e =>
      simp only [runOps, applyOp, Option.some_bind] at h
      simp only [countPushes] at hp
      exact ih _ _ h hp

/-- C1: the default `solve_expression` performs push/assert/solve/pop and
restores the solver context to its pre-call state regardless of the solve
result, so a subsequent `solve()` returns the same result as before the call. -/
theorem solve_expression_restores_context {E : Type} (solveFn : List E → SmtResult)
    (e : E) (s : SolverState E) (h : s.number_of_backtracks < 1000) :
    ∃ r s3, solve_expression solveFn e s = some (r, s3) ∧
      s3.contexts = s.contexts ∧
      solve solveFn s3 = solve solveFn s := by
  refine ⟨solveFn (e :: s.contexts.flatten),
    { contexts := s.contexts, number_of_backtracks := s.number_of_backtracks + 1 },
    ?_, rfl, rfl⟩
  simp [solve_expression, set_backtrack_position, h, assert, backtrack, solve]

/-- Concrete witness for `solve_expression_restores_context`. -/
theorem solve_expression_restores_context_witness :
    (initSolver Nat).number_of_backtracks < 1000 ∧
    (∃ r s3, solve_expression (fun _ => SmtResult.Undefined) 5 (initSolver Nat)
        = some (r, s3) ∧
      s3.contexts = (initSolver Nat).contexts ∧
      solve (fun _ => SmtResult.Undefined) s3
        = solve (fun _ => SmtResult.Undefined) (initSolver Nat)) :=
  ⟨by decide,
   solve_expression_restores_context (fun _ => SmtResult.Undefined) 5 (initSolver Nat)
     (by decide)⟩

/-- C4: starting from a fresh solver, the 1000th nested call to the default
`set_backtrack_position` succeeds and the 1001st fails its precondition. -/
theorem depth_bound_thousandth_succeeds_next_fails :
    (∃ s : SolverState Unit, pushN 1000 (initSolver Unit) = some s) ∧
    pushN 1001 (initSolver Unit) = none := by
  have h1000 := pushN_init Unit 1000 (by norm_num)
  constructor
  · exact ⟨_, h1000⟩
  · have h : (1001 : Nat) = 1000 + 1 := by norm_num
    rw [h, pushN, h1000]
    simp only [Option.some_bind, set_backtrack_position]
    norm_num

/-- C10: under the default methods, `number_of_backtracks` only ever grows:
each `set_backtrack_position` adds exactly one, `backtrack` checks its
precondition but never decrements, so the depth-1000 precondition bounds the
total number of `set_backtrack_position` calls ever made on the instance,
not the current nesting depth of unmatched pushes. -/
theorem number_of_backtracks_monotone {E : Type} (ops : List (SolverOp E))
    (s s' : SolverState E) (h : runOps ops s = some s') :
    s'.number_of_backtracks = s.number_of_backtracks + countPushes ops ∧
    s.number_of_backtracks ≤ s'.number_of_backtracks ∧
    (s.number_of_backtracks = 0 → countPushes ops ≤ 1000) := by
  have h1 := runOps_counter ops s s' h
  refine ⟨h1, by omega, ?_⟩
  intro h0
  by_cases hp : 0 < countPushes ops
  · have h2 := runOps_le_1000 ops s s' h hp
    omega
  · omega

/-- Concrete witness for `number_of_backtracks_monotone`. -/
theorem number_of_backtracks_monotone_witness :
    solverW.number_of_backtracks
        = (initSolver Nat).number_of_backtracks + countPushes opsW ∧
    (initSolver Nat).number_of_backtracks ≤ solverW.number_of_backtracks ∧
    ((initSolver Nat).number_of_backtracks = 0 → countPushes opsW ≤ 1000) :=
  number_of_backtracks_monotone opsW (initSolver Nat) solverW (by rfl)

lemma grab_top_not_qualified : ∀ p : MPath, (grab_top p).isQualifiedPath = false := by
  intro p
  induction p with
  | parameter o => rfl
  | qualifiedPath q sel ih => simpa [grab_top] using ih
  | other t => rfl

lemma grab_top_of_not_qualified (p : MPath) (h : p.isQualifiedPath = false) :
    grab_top p = p := by
  cases p with
  | parameter o => rfl
  | qualifiedPath q sel => simp [MPath.isQualifiedPath] at h
  | other t => rfl

/-- C6: `grab_top` returns a non-Qualified root, is idempotent, and any two
paths sharing a root resolve to the same owning argument ordinal.
(Termination on every acyclic path holds by construction: `grab_top` is
structurally recursive on the path.) -/
theorem grab_top_root_properties (p q : MPath) :
    grab_top (grab_top p) = grab_top p ∧
    (grab_top p).isQualifiedPath = false ∧
    (grab_top p = grab_top q →
      (grab_top p).get_ordinal = (grab_top q).get_ordinal) := by
  refine ⟨grab_top_of_not_qualified _ (grab_top_not_qualified p),
    grab_top_not_qualified p, ?_⟩
  intro h
  rw [h]

/-- Concrete witness for `grab_top_root_properties`: two distinct qualified
paths sharing the root `Parameter 3`. -/
theorem grab_top_root_properties_witness :
    grab_top (MPath.qualifiedPath (MPath.parameter 3) 0)
      = grab_top (MPath.qualifiedPath (MPath.qualifiedPath (MPath.parameter 3) 1) 2) ∧
    (grab_top (MPath.qualifiedPath (MPath.parameter 3) 0)).get_ordinal
      = (grab_top (MPath.qualifiedPath (MPath.qualifiedPath (MPath.parameter 3) 1) 2)).get_ordinal :=
  ⟨by decide,
   (grab_top_root_properties (MPath.qualifiedPath (MPath.parameter 3) 0)
     (MPath.qualifiedPath (MPath.qualifiedPath (MPath.parameter 3) 1) 2)).2.2 (by decide)⟩

lemma bmFind_insert_self {α : Type} : ∀ (m : List (String × α)) (k : String) (v : α),
    bmFind (bmInsert m k v) k = some v := by
  intro m k v
  induction m with
  | nil => simp [bmInsert, bmFind]
  | cons hd rest ih =>
    obtain ⟨k1, v1⟩ := hd
    by_cases h1 : k < k1
    · simp [bmInsert, h1, bmFind]
    · by_cases h2 : k = k1
      · simp [bmInsert, h1, h2, bmFind]
      · have hne : ¬ (k1 = k) := fun hh => h2 hh.symm
        simp [bmInsert, h1, h2, bmFind, hne, ih]

lemma bmFind_insert_ne {α : Type} :
    ∀ (m : List (String × α)) (k : String) (v : α) (k' : String), k' ≠ k →
      bmFind (bmInsert m k v) k' = bmFind m k' := by
  intro m k v
  induction m with
  | nil =>
    intro k' hk
    have : ¬ (k = k') := fun hh => hk hh.symm
    simp [bmInsert, bmFind, this]
  | cons hd rest ih =>
    obtain ⟨k1, v1⟩ := hd
    intro k' hk
    have hkk : ¬ (k = k') := fun hh => hk hh.symm
    by_cases h1 : k < k1
    · simp [bmInsert, h1, bmFind, hkk]
    · by_cases h2 : k = k1
      · subst h2
        simp [bmInsert, h1, bmFind, hkk]
      · simp [bmInsert, h1, h2, bmFind, ih _ hk]

lemma bmFind_insertIfAbsent_preserve {α : Type}
    (m : List (String × α)) (k : String) (v : α) (k' : String) (v' : α)
    (h : bmFind m k' = some v') :
    bmFind (bmInsertIfAbsent m k v) k' = some v' := by
  unfold bmInsertIfAbsent
  cases hc : bmContains m k with
  | true => simp [h]
  | false =>
    by_cases he : k' = k
    · subst he
      simp [bmContains, h] at hc
    · simp [bmFind_insert_ne m k v k' he, h]

lemma bmFind_bmSet_self {α : Type} :
    ∀ (m : List (String × α)) (k : String) (v v' : α),
      bmFind m k = some v' → bmFind (bmSet m k v) k = some v := by
  intro m k v
  induction m with
  | nil => intro v' h; simp [bmFind] at h
  | cons hd rest ih =>
    obtain ⟨k1, v1⟩ := hd
    intro v' h
    by_cases h1 : k1 = k
    · simp [bmSet, h1, bmFind]
    · simp only [bmFind, h1, ite_false, if_neg] at h
      simp only [bmSet, if_neg h1, bmFind, h1, ite_false]
      exact ih v' h

lemma bmFind_bmSet_ne {α : Type} :
    ∀ (m : List (String × α)) (k : String) (v : α) (k' : String), k' ≠ k →
      bmFind (bmSet m k v) k' = bmFind m k' := by
  intro m k v
  induction m with
  | nil => intro k' _; simp [bmSet]
  | cons hd rest ih =>
    obtain ⟨k1, v1⟩ := hd
    intro k' hk
    by_cases h1 : k1 = k
    · have hkk : ¬ (k = k') := fun hh => hk hh.symm
      have hk1 : ¬ (k1 = k') := by rw [h1]; exact hkk
      simp only [bmSet, if_pos h1, bmFind, hkk, hk1, ite_false]
      exact ih k' hk
    · simp only [bmSet, if_neg h1, bmFind]
      by_cases h2 : k1 = k'
      · simp [h2]
      · simp only [h2, ite_false]
        exact ih k' hk

lemma bmKeys_bmSet {α : Type} (m : List (String × α)) (k : String) (v : α) :
    bmKeys (bmSet m k v) = bmKeys m := by
  induction m with
  | nil => rfl
  | cons hd rest ih =>
    obtain ⟨k1, v1⟩ := hd
    by_cases h1 : k1 = k
    · simp only [bmSet, if_pos h1, bmKeys, List.map_cons]
      rw [h1]
      simpa [bmKeys] using ih
    · simp only [bmSet, if_neg h1, bmKeys, List.map_cons]
      simpa [bmKeys] using ih

lemma bmInsert_mem {α : Type} :
    ∀ (m : List (String × α)) (k : String) (v : α) (x : String × α),
      x ∈ bmInsert m k v → x.1 = k ∨ x ∈ m := by
  intro m k v
  induction m with
  | nil =>
    intro x hx
    simp [bmInsert] at hx
    simp [hx]
  | cons hd rest ih =>
    obtain ⟨k1, v1⟩ := hd
    intro x hx
    by_cases h1 : k < k1
    · simp only [bmInsert, if_pos h1, List.mem_cons] at hx
      rcases hx with h | h | h
      · exact Or.inl (by simp [h])
      · exact Or.inr (by simp [h])
      · exact Or.inr (List.mem_cons_of_mem _ h)
    · by_cases h2 : k = k1
      · simp only [bmInsert, if_neg h1, if_pos h2, List.mem_cons] at hx
        rcases hx with h | h
        · exact Or.inl (by simp [h])
        · exact Or.inr (List.mem_cons_of_mem _ h)
      · simp only [bmInsert, if_neg h1, if_neg h2, List.mem_cons] at hx
        rcases hx with h | h
        · exact Or.inr (by simp [h])
        · rcases ih x h with h' | h'
          · exact Or.inl h'
          · exact Or.inr (List.mem_cons_of_mem _ h')

lemma bmSorted_insert {α : Type} :
    ∀ (m : List (String × α)) (k : String) (v : α),
      bmSorted m → bmSorted (bmInsert m k v) := by
  intro m k v
  induction m with
  | nil => intro _; simp [bmInsert, bmSorted]
  | cons hd rest ih =>
    obtain ⟨k1, v1⟩ := hd
    intro hs
    rw [bmSorted, List.pairwise_cons] at hs
    obtain ⟨h1s, h2s⟩ := hs
    by_cases h1 : k < k1
    · rw [bmSorted, bmInsert]
      simp only [if_pos h1]
      rw [List.pairwise_cons]
      constructor
      · intro x hx
        rcases List.mem_cons.mp hx with h | h
        · simp [h, h1]
        · exact lt_trans h1 (h1s x h)
      · rw [List.pairwise_cons]
        exact ⟨h1s, h2s⟩
    · by_cases h2 : k = k1
      · rw [bmSorted, bmInsert]
        simp only [if_neg h1, if_pos h2]
        rw [List.pairwise_cons]
        refine ⟨fun x hx => ?_, h2s⟩
        have := h1s x hx
        simp only []
        rw [h2]
        exact this
      · have h3 : k1 < k := by
          rcases lt_trichotomy k k1 with h | h | h
          · exact absurd h h1
          · exact absurd h h2
          · exact h
        rw [bmSorted, bmInsert]
        simp only [if_neg h1, if_neg h2]
        rw [List.pairwise_cons]
        constructor
        · intro x hx
          rcases bmInsert_mem rest k v x hx with h | h
          · rw [h]; exact h3
          · exact h1s x h
        · exact ih h2s

lemma bmSorted_iff_keys {α : Type} (m : List (String × α)) :
    bmSorted m ↔ List.Pairwise (fun a b => a < b) (bmKeys m) := by
  unfold bmSorted bmKeys
  rw [List.pairwise_map]

lemma bmSorted_bmSet {α : Type} (m : List (String × α)) (k : String) (v : α)
    (h : bmSorted m) : bmSorted (bmSet m k v) := by
  rw [bmSorted_iff_keys] at h ⊢
  rw [bmKeys_bmSet]
  exact h

lemma bmKeys_insert_mem {α : Type} :
    ∀ (m : List (String × α)) (k : String) (v : α) (k' : String),
      k' ∈ bmKeys (bmInsert m k v) → k' = k ∨ k' ∈ bmKeys m := by
  intro m k v k' hk
  simp only [bmKeys, List.mem_map] at hk
  obtain ⟨x, hx, hxk⟩ := hk
  rcases bmInsert_mem m k v x hx with h | h
  · exact Or.inl (by rw [← hxk, h])
  · exact Or.inr (List.mem_map.mpr ⟨x, h, hxk⟩)

lemma listModify_get? {α : Type} (f : α → α) :
    ∀ (l : List α) (n i : Nat),
      (listModify f n l).get? i = if i = n then (l.get? n).map f else l.get? i := by
  intro l
  induction l with
  | nil => intro n i; simp [listModify]
  | cons a rest ih =>
    intro n i
    cases n with
    | zero =>
      cases i with
      | zero => simp [listModify]
      | succ j => simp [listModify]
    | succ m =>
      cases i with
      | zero => simp [listModify]
      | succ j =>
        simp only [listModify, List.get?]
        rw [ih m j]
        by_cases hj : j = m
        · simp [hj]
        · have hj' : ¬ (j + 1 = m + 1) := by omega
          simp [hj, hj']

lemma recordResolved_argBinding (fi : FuncTestCaseInfo) (r : ResolvedParam)
    (i : Nat) (k : String) (v : ResolvedParam)
    (h : argBinding fi i k = some v) :
    argBinding (recordResolved fi r) i k = some v := by
  unfold argBinding at h ⊢
  show (((listModify _ (r.related_to - 1) fi.args).get? i).bind
    (fun a => bmFind a.related_to k)) = some v
  rw [listModify_get?]
  by_cases hi : i = r.related_to - 1
  · rw [if_pos hi, ← hi]
    cases ha : fi.args.get? i with
    | none => rw [ha] at h; simp at h
    | some a =>
      rw [ha] at h
      simp only [Option.some_bind] at h
      simp only [Option.map_some', Option.some_bind]
      exact bmFind_insertIfAbsent_preserve _ _ _ _ _ h
  · rw [if_neg hi]
    exact h

lemma recordResolved_param_map (fi : FuncTestCaseInfo) (r : ResolvedParam)
    (k : String) (w : ResolvedParam)
    (h : bmFind fi.param_map k = some w) :
    bmFind (recordResolved fi r).param_map k = some w :=
  bmFind_insertIfAbsent_preserve _ _ _ _ _ h

lemma recordResolved_argShape (fi : FuncTestCaseInfo) (r : ResolvedParam) :
    ∀ i, ((recordResolved fi r).args.get? i).map argShape
      = (fi.args.get? i).map argShape := by
  intro i
  show ((listModify _ (r.related_to - 1) fi.args).get? i).map argShape = _
  rw [listModify_get?]
  by_cases hi : i = r.related_to - 1
  · rw [if_pos hi, ← hi]
    cases ha : fi.args.get? i <;> simp [ha, argShape]
  · rw [if_neg hi]

lemma processParams_preserve (getPathType : MPath → MTy) :
    ∀ (ps : List SmtParamData) (fi fi2 : FuncTestCaseInfo) (rs : List ResolvedParam),
      processParams getPathType fi ps = some (fi2, rs) →
      (∀ i k v, argBinding fi i k = some v → argBinding fi2 i k = some v) ∧
      (∀ k w, bmFind fi.param_map k = some w → bmFind fi2.param_map k = some w) := by
  intro ps
  induction ps with
  | nil =>
    intro fi fi2 rs h
    simp only [processParams, Option.some.injEq, Prod.mk.injEq] at h
    obtain ⟨h1, _⟩ := h
    subst h1
    exact ⟨fun i k v hv => hv, fun k w hw => hw⟩
  | cons p rest ih =>
    intro fi fi2 rs h
    cases hp : p.path with
    | none => simp [processParams, hp] at h
    | some path =>
      simp only [processParams, hp] at h
      by_cases hg : 1 ≤ (mkResolvedParam getPathType p path).related_to ∧
          (mkResolvedParam getPathType p path).related_to ≤ fi.args.length
      · rw [if_pos hg] at h
        cases hrec : processParams getPathType
            (recordResolved fi (mkResolvedParam getPathType p path)) rest with
        | none => rw [hrec] at h; simp at h
        | some pr =>
          obtain ⟨fi', rs'⟩ := pr
          rw [hrec] at h
          simp only [Option.some.injEq, Prod.mk.injEq] at h
          obtain ⟨h1, _⟩ := h
          subst h1
          have hrest := ih _ _ _ hrec
          refine ⟨fun i k v hv => hrest.1 i k v ?_, fun k w hw => hrest.2 k w ?_⟩
          · exact recordResolved_argBinding _ _ _ _ _ hv
          · exact recordResolved_param_map _ _ _ _ hw
      · rw [if_neg hg] at h
        simp at h

lemma processParams_argShape (getPathType : MPath → MTy) :
    ∀ (ps : List SmtParamData) (fi fi2 : FuncTestCaseInfo) (rs : List ResolvedParam),
      processParams getPathType fi ps = some (fi2, rs) →
      ∀ i, (fi2.args.get? i).map argShape = (fi.args.get? i).map argShape := by
  intro ps
  induction ps with
  | nil =>
    intro fi fi2 rs h
    simp only [processParams, Option.some.injEq, Prod.mk.injEq] at h
    obtain ⟨h1, _⟩ := h
    subst h1
    exact fun i => rfl
  | cons p rest ih =>
    intro fi fi2 rs h
    cases hp : p.path with
    | none => simp [processParams, hp] at h
    | some path =>
      simp only [processParams, hp] at h
      by_cases hg : 1 ≤ (mkResolvedParam getPathType p path).related_to ∧
          (mkResolvedParam getPathType p path).related_to ≤ fi.args.length
      · rw [if_pos hg] at h
        cases hrec : processParams getPathType
            (recordResolved fi (mkResolvedParam getPathType p path)) rest with
        | none => rw [hrec] at h; simp at h
        | some pr =>
          obtain ⟨fi', rs'⟩ := pr
          rw [hrec] at h
          simp only [Option.some.injEq, Prod.mk.injEq] at h
          obtain ⟨h1, _⟩ := h
          subst h1
          intro i
          rw [ih _ _ _ hrec i, recordResolved_argShape]
      · rw [if_neg hg] at h
        simp at h

lemma processParams_value_strings (getPathType : MPath → MTy) :
    ∀ (ps : List SmtParamData) (fi fi2 : FuncTestCaseInfo) (rs : List ResolvedParam),
      processParams getPathType fi ps = some (fi2, rs) →
      rs.map (fun r => r.value_string) = ps.map (fun p => SmtParamValue.fmt p.val) := by
  intro ps
  induction ps with
  | nil =>
    intro fi fi2 rs h
    simp only [processParams, Option.some.injEq, Prod.mk.injEq] at h
    obtain ⟨_, h2⟩ := h
    subst h2
    rfl
  | cons p rest ih =>
    intro fi fi2 rs h
    cases hp : p.path with
    | none => simp [processParams, hp] at h
    | some path =>
      simp only [processParams, hp] at h
      by_cases hg : 1 ≤ (mkResolvedParam getPathType p path).related_to ∧
          (mkResolvedParam getPathType p path).related_to ≤ fi.args.length
      · rw [if_pos hg] at h
        cases hrec : processParams getPathType
            (recordResolved fi (mkResolvedParam getPathType p path)) rest with
        | none => rw [hrec] at h; simp at h
        | some pr =>
          obtain ⟨fi', rs'⟩ := pr
          rw [hrec] at h
          simp only [Option.some.injEq, Prod.mk.injEq] at h
          obtain ⟨_, h2⟩ := h
          subst h2
          simp only [List.map_cons]
          rw [ih _ _ _ hrec]
          rfl
      · rw [if_neg hg] at h
        simp at h

lemma mkArgs_get? (debug_names : Nat → Option String) :
    ∀ (l : List MTy) (base i : Nat),
      (mkArgs debug_names base l).get? i = (l.get? i).map (fun ty =>
        { ty := ty,
          name := (debug_names (base + i)).getD ("param_" ++ toString (base + i + 1)),
          ordinal := base + i,
          related_to := [] }) := by
  intro l
  induction l with
  | nil => intro base i; simp [mkArgs]
  | cons ty rest ih =>
    intro base i
    cases i with
    | zero => simp [mkArgs, List.get?]
    | succ j =>
      simp only [mkArgs, List.get?]
      rw [ih (base + 1) j]
      simp only [show base + 1 + j = base + (j + 1) from by omega]

lemma recordResolved_sets_first (fi : FuncTestCaseInfo) (r : ResolvedParam)
    (hlen : 1 ≤ r.related_to ∧ r.related_to ≤ fi.args.length)
    (hnoarg : argBinding fi (r.related_to - 1) r.name = none)
    (hnopm : bmFind fi.param_map r.name = none) :
    argBinding (recordResolved fi r) (r.related_to - 1) r.name = some r ∧
    bmFind (recordResolved fi r).param_map r.name = some r := by
  have hidx : r.related_to - 1 < fi.args.length := by omega
  have ha : fi.args.get? (r.related_to - 1)
      = some (fi.args.get ⟨r.related_to - 1, hidx⟩) := List.get?_eq_get hidx
  unfold argBinding at hnoarg
  rw [ha] at hnoarg
  simp only [Option.some_bind] at hnoarg
  have hcont : ¬ (bmContains (fi.args.get ⟨r.related_to - 1, hidx⟩).related_to r.name
      = true) := by
    unfold bmContains
    rw [hnoarg]
    simp
  constructor
  · unfold argBinding
    show (((listModify _ (r.related_to - 1) fi.args).get? (r.related_to - 1)).bind
      (fun a => bmFind a.related_to r.name)) = some r
    rw [listModify_get?, if_pos rfl, ha]
    simp only [Option.map_some', Option.some_bind]
    unfold bmInsertIfAbsent
    rw [if_neg hcont]
    exact bmFind_insert_self _ _ _
  · show bmFind (bmInsertIfAbsent fi.param_map r.name r) r.name = some r
    have hcont2 : ¬ (bmContains fi.param_map r.name = true) := by
      unfold bmContains
      rw [hnopm]
      simp
    unfold bmInsertIfAbsent
    rw [if_neg hcont2]
    exact bmFind_insert_self _ _ _

lemma processParams_first_write_wins (getPathType : MPath → MTy)
    (fi fi2 : FuncTestCaseInfo) (p : SmtParamData) (rest : List SmtParamData)
    (rs : List ResolvedParam) (path : MPath)
    (hpath : p.path = some path)
    (hrun : processParams getPathType fi (p :: rest) = some (fi2, rs))
    (hnoarg : argBinding fi ((mkResolvedParam getPathType p path).related_to - 1)
        p.debug_name = none)
    (hnopm : bmFind fi.param_map p.debug_name = none) :
    argBinding fi2 ((mkResolvedParam getPathType p path).related_to - 1) p.debug_name
        = some (mkResolvedParam getPathType p path) ∧
    bmFind fi2.param_map p.debug_name = some (mkResolvedParam getPathType p path) := by
  simp only [processParams, hpath] at hrun
  by_cases hg : 1 ≤ (mkResolvedParam getPathType p path).related_to ∧
      (mkResolvedParam getPathType p path).related_to ≤ fi.args.length
  · rw [if_pos hg] at hrun
    cases hrec : processParams getPathType
        (recordResolved fi (mkResolvedParam getPathType p path)) rest with
    | none => rw [hrec] at hrun; simp at hrun
    | some pr =>
      obtain ⟨fi3, rs3⟩ := pr
      rw [hrec] at hrun
      simp only [Option.some.injEq, Prod.mk.injEq] at hrun
      obtain ⟨h1, _⟩ := hrun
      subst h1
      have hname : (mkResolvedParam getPathType p path).name = p.debug_name := rfl
      have hset := recordResolved_sets_first fi (mkResolvedParam getPathType p path) hg
        (by rw [hname]; exact hnoarg) (by rw [hname]; exact hnopm)
      have hpres := processParams_preserve getPathType rest
        (recordResolved fi (mkResolvedParam getPathType p path)) fi3 rs3 hrec
      rw [← hname]
      exact ⟨hpres.1 _ _ _ hset.1, hpres.2 _ _ hset.2⟩
  · rw [if_neg hg] at hrun
    simp at hrun

/-- C5: recording of resolved parameters is first-write-wins, both across
calls and within one call.  Part 1 (across two `add_test` calls): a binding
already present under a display name in an argument's related-fields map,
and an existing entry of the group's global parameter map, survive a later
`add_test` call for the same function unchanged.  Part 2 (within one call):
the first Model Parameter of a call to introduce a display name fixes the
value recorded under that name in the owning argument's related-fields map
and in the group's parameter map — every later parameter of the same call,
including one resolving to the same display name for the same argument, is
ignored, not overwritten. -/
theorem add_test_first_write_wins :
    (∀ (g g' : TestGen) (function_name : String) (val ind : Nat)
        (params : List SmtParamData) (argDecls : List MTy)
        (getPathType : MPath → MTy) (debug_names : Nat → Option String)
        (fi fi' : FuncTestCaseInfo) (i : Nat) (k : String) (v w : ResolvedParam),
      add_test g function_name val params ind argDecls getPathType debug_names
          = some g' →
      bmFind g.testcase_map (sanitizeName function_name) = some fi →
      bmFind g'.testcase_map (sanitizeName function_name) = some fi' →
      argBinding fi i k = some v →
      bmFind fi.param_map k = some w →
      argBinding fi' i k = some v ∧ bmFind fi'.param_map k = some w) ∧
    (∀ (g g' : TestGen) (function_name : String) (val ind : Nat)
        (p : SmtParamData) (rest : List SmtParamData) (argDecls : List MTy)
        (getPathType : MPath → MTy) (debug_names : Nat → Option String)
        (fi fi' : FuncTestCaseInfo) (path : MPath),
      add_test g function_name val (p :: rest) ind argDecls getPathType debug_names
          = some g' →
      bmFind (ensureGroup g function_name argDecls debug_names)
          (sanitizeName function_name) = some fi →
      bmFind g'.testcase_map (sanitizeName function_name) = some fi' →
      p.path = some path →
      argBinding fi ((mkResolvedParam getPathType p path).related_to - 1)
          p.debug_name = none →
      bmFind fi.param_map p.debug_name = none →
      argBinding fi' ((mkResolvedParam getPathType p path).related_to - 1) p.debug_name
          = some (mkResolvedParam getPathType p path) ∧
      bmFind fi'.param_map p.debug_name
          = some (mkResolvedParam getPathType p path)) := by
  constructor
  · intro g g' function_name val ind params argDecls getPathType debug_names
      fi fi' i k v w hrun hfi hfi' hargb hpm
    have hcont : bmContains g.testcase_map (sanitizeName function_name) = true := by
      unfold bmContains
      rw [hfi]
      rfl
    have hm0 : ensureGroup g function_name argDecls debug_names = g.testcase_map := by
      unfold ensureGroup
      rw [if_pos hcont]
    unfold add_test at hrun
    rw [hm0, hfi] at hrun
    simp only [Option.some_bind] at hrun
    cases hproc : processParams getPathType fi params with
    | none => rw [hproc] at hrun; simp at hrun
    | some pr =>
      obtain ⟨fi2, rs⟩ := pr
      rw [hproc] at hrun
      simp only [Option.map_some', Option.some.injEq] at hrun
      subst hrun
      dsimp only at hfi'
      rw [bmFind_bmSet_self g.testcase_map (sanitizeName function_name) _ fi hfi] at hfi'
      have hfieq : fi' = { fi2 with testcases := fi2.testcases
          ++ [{ abstract_val := val, param_list := rs }] } := (Option.some.inj hfi').symm
      subst hfieq
      have hpres := processParams_preserve getPathType params fi fi2 rs hproc
      constructor
      · have := hpres.1 i k v hargb
        simpa [argBinding] using this
      · exact hpres.2 k w hpm
  · intro g g' function_name val ind p rest argDecls getPathType debug_names
      fi fi' path hrun hfi hfi' hpath hnoarg hnopm
    unfold add_test at hrun
    rw [hfi] at hrun
    simp only [Option.some_bind] at hrun
    cases hproc : processParams getPathType fi (p :: rest) with
    | none => rw [hproc] at hrun; simp at hrun
    | some pr =>
      obtain ⟨fi2, rs⟩ := pr
      rw [hproc] at hrun
      simp only [Option.map_some', Option.some.injEq] at hrun
      subst hrun
      dsimp only at hfi'
      rw [bmFind_bmSet_self _ (sanitizeName function_name) _ fi hfi] at hfi'
      have hfieq : fi' = { fi2 with testcases := fi2.testcases
          ++ [{ abstract_val := val, param_list := rs }] } := (Option.some.inj hfi').symm
      subst hfieq
      have hfirst := processParams_first_write_wins getPathType fi fi2 p rest rs path
        hpath hproc hnoarg hnopm
      constructor
      · simpa [argBinding] using hfirst.1
      · exact hfirst.2

/-- Concrete witness for `add_test_first_write_wins`, exercising both parts.
Across calls: after a second `add_test` with the same display name "x"
(value 2), both maps still hold the resolution of value 1 from the first
call.  Within one call: a single `add_test` carrying `p1W` (value 1) and
`p2W` (same name "x", value 2) leaves both maps holding the resolution of
`p1W`. -/
theorem add_test_first_write_wins_witness :
    (argBinding fi2W 0 "x" = some r1W ∧ bmFind fi2W.param_map "x" = some r1W) ∧
    (argBinding fiBW ((mkResolvedParam gptW p1W (MPath.parameter 1)).related_to - 1) "x"
        = some (mkResolvedParam gptW p1W (MPath.parameter 1)) ∧
      bmFind fiBW.param_map "x" = some (mkResolvedParam gptW p1W (MPath.parameter 1))) :=
  ⟨add_test_first_write_wins.1 g1W g2W "f" 0 0 [p2W] [ityW] gptW dbgW fi1W fi2W 0 "x"
      r1W r1W (by rfl) (by rfl) (by rfl) (by rfl) (by rfl),
   add_test_first_write_wins.2 (TestGen.new "out") gBW "f" 0 0 p1W [p2W] [ityW] gptW dbgW
      fiNW fiBW (MPath.parameter 1) (by rfl) (by rfl) (by rfl) (by rfl) (by rfl) (by rfl)⟩

/-- C8 counterexample: creating the group of a one-argument function with no
debug names synthesizes the display name "param_2" for the argument whose
1-based ordinal is 1 — not "param_1" as the claim states. -/
theorem synthesized_name_off_by_one :
    ((add_test (TestGen.new "out") "f" 0 [] 0 [ityW] gptW dbgW).bind fun g =>
      (bmFind g.testcase_map "f").bind fun fi =>
        (fi.args.get? 0).map fun a => a.name) = some "param_2" ∧
    ("param_2" : String) ≠ "param_1" := by
  constructor
  · rfl
  · decide

/-- C8 (amended): when a Function Test Group is first created in `add_test`,
the argument at 0-based position `i` (1-based ordinal `i + 1`) whose ordinal
has no debug-name entry gets the synthesized display name
`param_<ordinal + 1>`, i.e. `"param_" ++ toString (i + 2)` — one past its
1-based position. -/
theorem synthesized_name_is_ordinal_succ
    (g g' : TestGen) (function_name : String) (val ind : Nat)
    (params : List SmtParamData) (argDecls : List MTy)
    (getPathType : MPath → MTy) (debug_names : Nat → Option String)
    (i : Nat) (ty : MTy)
    (hnew : bmContains g.testcase_map (sanitizeName function_name) = false)
    (hrun : add_test g function_name val params ind argDecls getPathType debug_names
      = some g')
    (hty : argDecls.get? i = some ty)
    (hdbg : debug_names (i + 1) = none) :
    ∃ fi a, bmFind g'.testcase_map (sanitizeName function_name) = some fi ∧
      fi.args.get? i = some a ∧ a.ordinal = i + 1 ∧
      a.name = "param_" ++ toString (i + 2) := by
  have hnotc : ¬ (bmContains g.testcase_map (sanitizeName function_name) = true) := by
    rw [hnew]; simp
  have hm0 : ensureGroup g function_name argDecls debug_names
      = bmInsert g.testcase_map (sanitizeName function_name)
        (newFuncInfo (sanitizeName function_name) function_name argDecls debug_names) := by
    unfold ensureGroup
    rw [if_neg hnotc]
  have hfind := bmFind_insert_self g.testcase_map (sanitizeName function_name)
    (newFuncInfo (sanitizeName function_name) function_name argDecls debug_names)
  unfold add_test at hrun
  rw [hm0, hfind] at hrun
  simp only [Option.some_bind] at hrun
  cases hproc : processParams getPathType
      (newFuncInfo (sanitizeName function_name) function_name argDecls debug_names)
      params with
  | none => rw [hproc] at hrun; simp at hrun
  | some pr =>
    obtain ⟨fi2, rs⟩ := pr
    rw [hproc] at hrun
    simp only [Option.map_some', Option.some.injEq] at hrun
    subst hrun
    dsimp only
    have hset := bmFind_bmSet_self _ (sanitizeName function_name)
      ({ fi2 with testcases := fi2.testcases
          ++ [{ abstract_val := val, param_list := rs }] }) _ hfind
    have hshape := processParams_argShape getPathType params _ fi2 rs hproc i
    have hargs0 : ((newFuncInfo (sanitizeName function_name) function_name argDecls
        debug_names).args.get? i).map argShape
        = some (ty, ("param_" ++ toString (i + 2) : String), i + 1) := by
      show ((mkArgs debug_names 1 argDecls).get? i).map argShape = _
      rw [mkArgs_get? debug_names argDecls 1 i, hty]
      simp only [Option.map_some', argShape]
      rw [show 1 + i = i + 1 from by omega, hdbg]
      simp only [Option.getD_none]
    rw [hargs0] at hshape
    obtain ⟨a, ha, hsh⟩ := Option.map_eq_some'.mp hshape
    simp only [argShape, Prod.mk.injEq] at hsh
    obtain ⟨hty', hname, hord⟩ := hsh
    exact ⟨_, a, hset, ha, hord, hname⟩

/-- Concrete witness for `synthesized_name_is_ordinal_succ`. -/
theorem synthesized_name_is_ordinal_succ_witness :
    ∃ fi a, bmFind g8W.testcase_map (sanitizeName "g8") = some fi ∧
      fi.args.get? 0 = some a ∧ a.ordinal = 0 + 1 ∧
      a.name = "param_" ++ toString (0 + 2) :=
  synthesized_name_is_ordinal_succ (TestGen.new "out") g8W "g8" 0 0 [] [ityW] gptW dbgW
    0 ityW (by rfl) (by rfl) (by rfl) (by rfl)

/-- C9: rendering a Model Value to text is total: booleans and numerals
render as their literals, Unknown renders as the placeholder token "_", and
every resolved parameter built by the `add_test` parameter loop carries
exactly this rendering as its generated-initializer value text. -/
theorem smt_param_value_render_total :
    (∀ b, SmtParamValue.fmt (SmtParamValue.Bool b) = toString b) ∧
    (∀ n : Int, SmtParamValue.fmt (SmtParamValue.Numeral n) = toString n) ∧
    SmtParamValue.fmt SmtParamValue.Unknown = "_" ∧
    (∀ (getPathType : MPath → MTy) (ps : List SmtParamData)
        (fi fi2 : FuncTestCaseInfo) (rs : List ResolvedParam),
      processParams getPathType fi ps = some (fi2, rs) →
      rs.map (fun r => r.value_string) = ps.map (fun p => SmtParamValue.fmt p.val)) :=
  ⟨fun _ => rfl, fun _ => rfl, rfl,
   fun getPathType ps fi fi2 rs h => processParams_value_strings getPathType ps fi fi2 rs h⟩

/-- Concrete witness for `smt_param_value_render_total`: a numeral and an
Unknown value both render (the Unknown as "_") in the recorded testcase. -/
theorem smt_param_value_render_total_witness :
    proc9W.2.map (fun r => r.value_string)
      = [p1W, pUnkW].map (fun p => SmtParamValue.fmt p.val) :=
  smt_param_value_render_total.2.2.2 gptW [p1W, pUnkW] fi9W proc9W.1 proc9W.2 (by rfl)

set_option maxRecDepth 8192 in
/-- C2 counterexample: for the spec's own scenario — function "f" with one
plain integer argument, one recorded assignment with Model Parameter "x" =
Numeral 42 at Access Path Parameter(1) — emission DOES emit a constructor
stub (the output contains "construct_") although the claim says none is
emitted for that argument. -/
theorem constructor_stub_emitted_for_plain_param :
    ((add_test (TestGen.new "out") "f" 0
        [{ debug_name := "x", path := some (MPath.parameter 1),
           val := SmtParamValue.Numeral 42 }] 0 [ityW] gptW dbgW).bind fun g =>
      (bmFind g.testcase_map "f").bind fun fi =>
        (output_function_testcases fi).map fun s => containsSub s "construct_")
      = some true := by
  rfl

/-- C2 (amended): during emission a constructor stub is emitted for EVERY
Function Argument, whether or not its `related_fields` map is empty — the
emitted unit is the module header followed by the concatenation of one
`make_constuctor_function` stub per argument, then the rest. -/
theorem constructor_stub_per_argument (func_info : FuncTestCaseInfo) (s : String)
    (h : output_function_testcases func_info = some s) :
    ∃ t, s = "\n#[cfg(test)]\nmod " ++ func_info.func_name
        ++ "_tests \x7b\n    use super::*;\n\n"
        ++ String.join (func_info.args.map make_constuctor_function) ++ t := by
  unfold output_function_testcases at h
  cases hts : testcasesStrings func_info 0 func_info.testcases with
  | none => rw [hts] at h; simp at h
  | some body =>
    rw [hts] at h
    simp only [Option.some.injEq] at h
    exact ⟨body ++ "\x7d\n", h.symm⟩

/-- Concrete witness for `constructor_stub_per_argument`. -/
theorem constructor_stub_per_argument_witness :
    ∃ t, sC2W = "\n#[cfg(test)]\nmod " ++ fiC2W.func_name
        ++ "_tests \x7b\n    use super::*;\n\n"
        ++ String.join (fiC2W.args.map make_constuctor_function) ++ t :=
  constructor_stub_per_argument fiC2W sC2W (by rfl)

lemma writeLoop_spec (dir : String) (fileOk : String → Bool) :
    ∀ (m : List (String × FuncTestCaseInfo)) (ws : List (String × String)) (err : Bool),
      writeLoop dir fileOk m = some (ws, err) →
      ws.map Prod.fst = (m.map (fun p => mkFileName dir p.1)).takeWhile fileOk ∧
      err = (m.map (fun p => mkFileName dir p.1)).any (fun n => ! fileOk n) := by
  intro m
  induction m with
  | nil =>
    intro ws err h
    simp only [writeLoop, Option.some.injEq, Prod.mk.injEq] at h
    obtain ⟨h1, h2⟩ := h
    subst h1
    subst h2
    simp
  | cons hd rest ih =>
    obtain ⟨fname, func_info⟩ := hd
    intro ws err h
    cases hout : output_function_testcases func_info with
    | none => simp [writeLoop, hout] at h
    | some content =>
      simp only [writeLoop, hout] at h
      by_cases hok : fileOk (mkFileName dir fname) = true
      · rw [if_pos hok] at h
        cases hrec : writeLoop dir fileOk rest with
        | none => rw [hrec] at h; simp at h
        | some pr =>
          obtain ⟨ws', err'⟩ := pr
          rw [hrec] at h
          simp only [Option.some.injEq, Prod.mk.injEq] at h
          obtain ⟨h1, h2⟩ := h
          subst h1
          subst h2
          have := ih ws' err' hrec
          simp only [List.map_cons, List.takeWhile_cons, List.any_cons, hok,
            Bool.not_true, Bool.false_or, if_pos]
          exact ⟨by rw [this.1], this.2⟩
      · rw [if_neg hok] at h
        simp only [Option.some.injEq, Prod.mk.injEq] at h
        obtain ⟨h1, h2⟩ := h
        subst h1
        subst h2
        simp only [List.map_cons, List.takeWhile_cons, List.any_cons]
        have hok' : fileOk (mkFileName dir fname) = false := by
          cases hh : fileOk (mkFileName dir fname)
          · rfl
          · exact absurd hh hok
        simp [hok']

/-- C3 (amended): a write failure while emitting stops the emission loop:
exactly the maximal prefix of recorded functions (in sorted map order) whose
writes succeed is written — everything from the first failing function on,
including functions whose own writes would succeed, is not — and the single
propagated failure is logged by `output`, which returns normally. -/
theorem emit_writes_prefix_until_failure
    (fileOk : String → Bool) (g : TestGen)
    (ws : List (String × String)) (logged : Option String)
    (h : output true fileOk g = some (ws, logged)) :
    ws.map Prod.fst
      = (g.testcase_map.map (fun p => mkFileName g.test_output_dir p.1)).takeWhile fileOk ∧
    logged.isSome
      = (g.testcase_map.map (fun p => mkFileName g.test_output_dir p.1)).any
          (fun n => ! fileOk n) := by
  have hoi : output_internal true fileOk g
      = writeLoop g.test_output_dir fileOk g.testcase_map := by
    unfold output_internal
    rw [if_pos rfl]
  unfold output at h
  rw [hoi] at h
  cases hwl : writeLoop g.test_output_dir fileOk g.testcase_map with
  | none => rw [hwl] at h; simp at h
  | some pr =>
    obtain ⟨ws', err'⟩ := pr
    rw [hwl] at h
    simp only [Option.map_some', Option.some.injEq, Prod.mk.injEq] at h
    obtain ⟨h1, h2⟩ := h
    subst h1
    have hspec := writeLoop_spec g.test_output_dir fileOk g.testcase_map ws' err' hwl
    refine ⟨hspec.1, ?_⟩
    rw [← h2, ← hspec.2]
    cases err' <;> simp

/-- C3 counterexample: the write for "a" fails, and although the write for
"b" would succeed and "b" is recorded, NOTHING is written — emission does
not proceed to the remaining functions; the error is logged. -/
theorem write_failure_stops_emission :
    output true fOk3 g3W = some ([], some "test_gen output error") ∧
    fOk3 (mkFileName "out" "b") = true ∧
    bmFind g3W.testcase_map "b" = some fiB := by
  refine ⟨by rfl, by rfl, by rfl⟩

/-- Concrete witness for `emit_writes_prefix_until_failure`, on the same
two-function state: the written prefix is empty and the failure is logged. -/
theorem emit_writes_prefix_until_failure_witness :
    (([] : List (String × String)).map Prod.fst
      = (g3W.testcase_map.map (fun p => mkFileName g3W.test_output_dir p.1)).takeWhile fOk3) ∧
    (some "test_gen output error").isSome
      = (g3W.testcase_map.map (fun p => mkFileName g3W.test_output_dir p.1)).any
          (fun n => ! fOk3 n) :=
  emit_writes_prefix_until_failure fOk3 g3W [] (some "test_gen output error") (by rfl)

lemma testcasesStrings_eq_numbered (func_info : FuncTestCaseInfo) :
    ∀ (l : List Testcase) (k : Nat),
      testcasesStrings func_info k l
        = joinOpt ((numberFrom k l).map fun p => output_testcase p.1 func_info p.2) := by
  intro l
  induction l with
  | nil => intro k; rfl
  | cons tc rest ih =>
    intro k
    simp only [testcasesStrings, numberFrom, List.map_cons, joinOpt]
    rw [← ih (k + 1)]

lemma add_test_sorted (g g' : TestGen) (function_name : String) (val ind : Nat)
    (params : List SmtParamData) (argDecls : List MTy)
    (getPathType : MPath → MTy) (debug_names : Nat → Option String)
    (hrun : add_test g function_name val params ind argDecls getPathType debug_names
      = some g')
    (hs : bmSorted g.testcase_map) : bmSorted g'.testcase_map := by
  unfold add_test at hrun
  cases hf : bmFind (ensureGroup g function_name argDecls debug_names)
      (sanitizeName function_name) with
  | none => rw [hf] at hrun; simp at hrun
  | some func_info =>
    rw [hf] at hrun
    simp only [Option.some_bind] at hrun
    cases hp : processParams getPathType func_info params with
    | none => rw [hp] at hrun; simp at hrun
    | some pr =>
      rw [hp] at hrun
      simp only [Option.map_some', Option.some.injEq] at hrun
      subst hrun
      dsimp only
      apply bmSorted_bmSet
      unfold ensureGroup
      by_cases hc : bmContains g.testcase_map (sanitizeName function_name) = true
      · rw [if_pos hc]; exact hs
      · rw [if_neg hc]; exact bmSorted_insert _ _ _ hs

lemma add_test_keys (g g' : TestGen) (function_name : String) (val ind : Nat)
    (params : List SmtParamData) (argDecls : List MTy)
    (getPathType : MPath → MTy) (debug_names : Nat → Option String)
    (hrun : add_test g function_name val params ind argDecls getPathType debug_names
      = some g') :
    ∀ k, k ∈ bmKeys g'.testcase_map →
      k = sanitizeName function_name ∨ k ∈ bmKeys g.testcase_map := by
  unfold add_test at hrun
  cases hf : bmFind (ensureGroup g function_name argDecls debug_names)
      (sanitizeName function_name) with
  | none => rw [hf] at hrun; simp at hrun
  | some func_info =>
    rw [hf] at hrun
    simp only [Option.some_bind] at hrun
    cases hp : processParams getPathType func_info params with
    | none => rw [hp] at hrun; simp at hrun
    | some pr =>
      rw [hp] at hrun
      simp only [Option.map_some', Option.some.injEq] at hrun
      subst hrun
      intro k hk
      dsimp only at hk
      rw [bmKeys_bmSet] at hk
      unfold ensureGroup at hk
      by_cases hc : bmContains g.testcase_map (sanitizeName function_name) = true
      · rw [if_pos hc] at hk
        exact Or.inr hk
      · rw [if_neg hc] at hk
        exact bmKeys_insert_mem g.testcase_map (sanitizeName function_name) _ k hk

lemma runCallsFrom_sorted :
    ∀ (calls : List AddTestCall) (g g' : TestGen),
      runCallsFrom g calls = some g' → bmSorted g.testcase_map →
      bmSorted g'.testcase_map := by
  intro calls
  induction calls with
  | nil =>
    intro g g' h hs
    simp only [runCallsFrom, Option.some.injEq] at h
    subst h
    exact hs
  | cons c rest ih =>
    intro g g' h hs
    cases hstep : add_test g c.function_name c.val c.params c.ind c.argDecls
        c.getPathType c.debug_names with
    | none => simp [runCallsFrom, hstep] at h
    | some g1 =>
      simp only [runCallsFrom, hstep] at h
      exact ih g1 g' h (add_test_sorted g g1 c.function_name c.val c.ind c.params
        c.argDecls c.getPathType c.debug_names hstep hs)

lemma runCallsFrom_keys :
    ∀ (calls : List AddTestCall) (g g' : TestGen),
      runCallsFrom g calls = some g' →
      ∀ k, k ∈ bmKeys g'.testcase_map →
        (∃ c ∈ calls, k = sanitizeName c.function_name) ∨ k ∈ bmKeys g.testcase_map := by
  intro calls
  induction calls with
  | nil =>
    intro g g' h k hk
    simp only [runCallsFrom, Option.some.injEq] at h
    subst h
    exact Or.inr hk
  | cons c rest ih =>
    intro g g' h k hk
    cases hstep : add_test g c.function_name c.val c.params c.ind c.argDecls
        c.getPathType c.debug_names with
    | none => simp [runCallsFrom, hstep] at h
    | some g1 =>
      simp only [runCallsFrom, hstep] at h
      rcases ih g1 g' h k hk with hrest | hg1
      · obtain ⟨c', hc', hk'⟩ := hrest
        exact Or.inl ⟨c', List.mem_cons_of_mem _ hc', hk'⟩
      · rcases add_test_keys g g1 c.function_name c.val c.ind c.params c.argDecls
            c.getPathType c.debug_names hstep k hg1 with hnew | hold
        · exact Or.inl ⟨c, List.mem_cons_self _ _, hnew⟩
        · exact Or.inr hold

/-- C7: replaying the identical sequence of `add_test` calls twice yields
identical generated output (the emission is a pure function of the replayed
state); the group map has strictly ascending keys — the emission order — and
every key is the sanitized name of some recorded call; and within every
group, the rendered test functions are the group's testcases numbered
sequentially from 0 in insertion order. -/
theorem output_deterministic_sorted_numbered
    (dir : String) (calls : List AddTestCall) (g1 g2 : TestGen)
    (dirOk : Bool) (fileOk : String → Bool)
    (h1 : runCalls dir calls = some g1) (h2 : runCalls dir calls = some g2) :
    output dirOk fileOk g1 = output dirOk fileOk g2 ∧
    bmSorted g1.testcase_map ∧
    (∀ k, k ∈ bmKeys g1.testcase_map → ∃ c ∈ calls, k = sanitizeName c.function_name) ∧
    (∀ fi, testcasesStrings fi 0 fi.testcases = testsNumbered fi) := by
  have hg : g1 = g2 := Option.some.inj (h1.symm.trans h2)
  subst hg
  refine ⟨rfl, ?_, ?_, ?_⟩
  · exact runCallsFrom_sorted calls _ g1 h1 (by simp [TestGen.new, bmSorted])
  · intro k hk
    rcases runCallsFrom_keys calls _ g1 h1 k hk with h | h
    · exact h
    · simp [TestGen.new, bmKeys] at h
  · intro fi
    rw [testcasesStrings_eq_numbered]
    rfl

/-- Concrete witness for `output_deterministic_sorted_numbered`. -/
theorem output_deterministic_sorted_numbered_witness :
    output true (fun _ => true) g7W = output true (fun _ => true) g7W ∧
    bmSorted g7W.testcase_map ∧
    (∀ k, k ∈ bmKeys g7W.testcase_map →
      ∃ c ∈ [callW], k = sanitizeName c.function_name) ∧
    (∀ fi, testcasesStrings fi 0 fi.testcases = testsNumbered fi) :=
  output_deterministic_sorted_numbered "out" [callW] g7W g7W true (fun _ => true)
    (by rfl) (by rfl)
